import Mathlib

/-!
Verification of the chunking, embedding-cache and ranking core of a
documentation search tool.  The definitions below are a shallow embedding of
`ptsearch/document.py` (DocumentProcessor), `ptsearch/embedding.py`
(EmbeddingGenerator) and `ptsearch/formatter.py` (ResultFormatter).

Modelling conventions:
* Python `str` values handled by the chunker are embedded as `List Char`
  (the inputs of interest are ASCII; `str.strip()` and the regex class `\s`
  are modelled on the ASCII whitespace characters).
* Python floats are modelled as `ℚ`.  Every float comparison the claims
  depend on is robust to rounding, and the two mixed int/float comparisons
  `len(text) <= chunk_size * 1.5` and `point - start >= chunk_size / 2` are
  modelled exactly over integers as `2*len ≤ 3*cs` and `2*(point-start) ≥ cs`.
* `uuid.uuid4()` is a nondeterministic fresh-token supply; it is modelled by
  numbering the produced chunks (`with_ids`), so "fresh unique identifier"
  becomes distinctness of the assigned ids.
* `hashlib.sha256(...).hexdigest()` is modelled as an unspecified
  deterministic function parameter `hash : String → String`; the constant
  cache-directory prefix of every cache path is dropped.
* Filesystem and network effects are modelled by explicit state passing
  (`CacheStore`) and an explicit backend function
  `api : List String → Option (List Vec)` (`none` models a raised exception,
  which `generate_embeddings` catches).
-/

/-! ## Basic data -/

/-- Embedding vectors (`List[float]` in the source). -/
abbrev Vec := List ℚ

/-- `EMBEDDING_DIMENSIONS` from `ptsearch/config.py`. -/
def EMBEDDING_DIMENSIONS : Nat := 3072

/-- The `[0.0] * EMBEDDING_DIMENSIONS` fallback vector. -/
def zeroVector : Vec := List.replicate EMBEDDING_DIMENSIONS 0

/-- Chunk / section metadata dictionary.  `chunk` is the optional 1-based
sequence number key added by the splitting paths (`{**metadata, 'chunk': n}`);
sections produced by the markdown parser carry no `chunk` key (`none`). -/
structure Metadata where
  title : String
  source : String
  chunk_type : String
  language : Option String
  chunk : Option Nat
deriving DecidableEq, Repr

/-- A parsed document section, as handed to `_chunk_sections`. -/
structure DocSection where
  text : List Char
  meta : Metadata
deriving DecidableEq, Repr

/-- A produced chunk before the uuid is attached. -/
structure PreChunk where
  text : List Char
  meta : Metadata
deriving DecidableEq, Repr

/-- A produced chunk with its identifier (uuid modelled as a fresh number). -/
structure Chunk where
  id : Nat
  text : List Char
  meta : Metadata
deriving DecidableEq, Repr

/-! ## Character helpers -/

/-- ASCII fragment of Python whitespace (`str.strip`, regex `\s`). -/
def isPySpace (c : Char) : Bool :=
  c == ' ' || c == '\t' || c == '\n' || c == '\r' || c == '\x0B' || c == '\x0C'

/-- Regex `\w` on ASCII input: `[a-zA-Z0-9_]`. -/
def isWordChar (c : Char) : Bool :=
  c.isAlphanum || c == '_'

/-- Sentence-terminal punctuation of the regex `(?<=[.!?])`. -/
def isTermPunct (c : Char) : Bool :=
  c == '.' || c == '!' || c == '?'

/-- Python `str.strip()` (ASCII whitespace). -/
def pyStrip (l : List Char) : List Char :=
  ((l.dropWhile isPySpace).reverse.dropWhile isPySpace).reverse

/-- Python slice `l[s:e]`. -/
def listSlice (l : List Char) (s e : Nat) : List Char :=
  (l.drop s).take (e - s)

/-- Python `text.rfind(c, s, e)`: largest index `i` with `s ≤ i < e` and
`text[i] = c`, else `-1`.  The extra `Nat` argument is the index of the head
of the remaining list. -/
def pyRfind (c : Char) (s e : Nat) : List Char → Nat → Int
  | [], _ => -1
  | x :: xs, i =>
    let r := pyRfind c s e xs (i + 1)
    if r ≠ -1 then r
    else if s ≤ i ∧ i < e ∧ x = c then (i : Int) else -1

/-! ## `re.split(r'\n\s*\n', text)` (paragraph split)

`re.split` removes each non-overlapping leftmost match of
`'\n' (whitespace)* '\n'`; by greedy matching with backtracking the matched
separator extends from a `'\n'` to the last `'\n'` inside the maximal
whitespace run that follows it.  The scanner below tracks three states:
`norm` (inside a field), `cand` (saw `'\n'` plus non-newline whitespace, no
second `'\n'` yet) and `conf` (a separator has been confirmed and may still
extend). -/

inductive PMode where
  | norm
  | cand
  | conf
deriving DecidableEq, Repr

/-- Paragraph-split scanner; `fieldRev`/`pendRev` accumulate the current field
and the pending tentative-separator characters in reverse. -/
def paraSplitAux : PMode → List Char → List Char → List Char → List (List Char)
  | .norm, fieldRev, _, [] => [fieldRev.reverse]
  | .norm, fieldRev, _, c :: rest =>
    if c = '\n' then paraSplitAux .cand fieldRev [c] rest
    else paraSplitAux .norm (c :: fieldRev) [] rest
  | .cand, fieldRev, pendRev, [] => [(pendRev ++ fieldRev).reverse]
  | .cand, fieldRev, pendRev, c :: rest =>
    if c = '\n' then fieldRev.reverse :: paraSplitAux .conf [] [] rest
    else if isPySpace c then paraSplitAux .cand fieldRev (c :: pendRev) rest
    else paraSplitAux .norm (c :: (pendRev ++ fieldRev)) [] rest
  | .conf, _, pendRev, [] => [pendRev.reverse]
  | .conf, _, pendRev, c :: rest =>
    if c = '\n' then paraSplitAux .conf [] [] rest
    else if isPySpace c then paraSplitAux .conf [] (c :: pendRev) rest
    else paraSplitAux .norm (c :: pendRev) [] rest

/-- `re.split(r'\n\s*\n', text)`. -/
def paraSplit (text : List Char) : List (List Char) :=
  paraSplitAux .norm [] [] text

/-! ## `re.split(r'(?<=[.!?])\s+', para)` (sentence split)

A separator is a maximal whitespace run whose preceding character is one of
`.`, `!`, `?`.  The scanner tracks whether the previous character was such
punctuation and whether it is currently consuming a separator run. -/

/-- Sentence-split scanner: `prevP` = previous char was terminal punctuation,
`inSep` = currently inside a separator whitespace run. -/
def sentSplitAux : Bool → Bool → List Char → List Char → List (List Char)
  | _, false, fieldRev, [] => [fieldRev.reverse]
  | prevP, false, fieldRev, c :: rest =>
    if isPySpace c ∧ prevP then
      fieldRev.reverse :: sentSplitAux false true [] rest
    else sentSplitAux (isTermPunct c) false (c :: fieldRev) rest
  | _, true, fieldRev, [] => [fieldRev.reverse]
  | _, true, fieldRev, c :: rest =>
    if isPySpace c then sentSplitAux false true fieldRev rest
    else sentSplitAux (isTermPunct c) false (c :: fieldRev) rest

/-- `re.split(r'(?<=[.!?])\s+', para)`. -/
def sentSplit (para : List Char) : List (List Char) :=
  sentSplitAux false false [] para

/-! ## Lines with their start offsets

Mirrors `line_start_positions` plus the per-line slicing of
`_find_code_chunk_points`: the line starting at position `p` extends to the
next `'\n'` (excluded) or to the end of the text. -/

def linesWithStartsAux (pos lineStart : Nat) (curRev : List Char) :
    List Char → List (Nat × List Char)
  | [] => [(lineStart, curRev.reverse)]
  | c :: rest =>
    if c = '\n' then
      (lineStart, curRev.reverse) :: linesWithStartsAux (pos + 1) (pos + 1) [] rest
    else linesWithStartsAux (pos + 1) lineStart (c :: curRev) rest

def linesWithStarts (code : List Char) : List (Nat × List Char) :=
  linesWithStartsAux 0 0 [] code

/-! ## The five line patterns of `_find_code_chunk_points`

Each Python regex is a sequence of literals, `\s*`, `\s+`, `\w+` and
one-character classes whose alphabets are pairwise disjoint at every
boundary, so greedy maximal-munch matching is exact. -/

/-- Consume one character satisfying `p`, then the maximal run of them
(`\s+` / `\w+`). -/
def expectPlus (p : Char → Bool) : List Char → Option (List Char)
  | c :: rest => if p c then some (rest.dropWhile p) else none
  | [] => none

/-- Consume a literal string. -/
def expectLit : List Char → List Char → Option (List Char)
  | [], l => some l
  | c :: cs, x :: xs => if x = c then expectLit cs xs else none
  | _ :: _, [] => none

/-- Consume one character satisfying `p`. -/
def expectOne (p : Char → Bool) : List Char → Option (List Char)
  | c :: rest => if p c then some rest else none
  | [] => none

/-- `^\s*def\s+\w+\s*\(` -/
def patDef (l : List Char) : Bool :=
  (do
    let l1 ← expectLit "def".data (l.dropWhile isPySpace)
    let l2 ← expectPlus isPySpace l1
    let l3 ← expectPlus isWordChar l2
    let _ ← expectOne (· == '(') (l3.dropWhile isPySpace)
    pure ()).isSome

/-- `^\s*class\s+\w+\s*[:\(]` -/
def patClass (l : List Char) : Bool :=
  (do
    let l1 ← expectLit "class".data (l.dropWhile isPySpace)
    let l2 ← expectPlus isPySpace l1
    let l3 ← expectPlus isWordChar l2
    let _ ← expectOne (fun c => c == ':' || c == '(') (l3.dropWhile isPySpace)
    pure ()).isSome

/-- `^\s*if\s+__name__\s*==\s*['"]__main__['"]\s*:` (the two quote classes are
independent, as in the regex). -/
def patMain (l : List Char) : Bool :=
  (do
    let l1 ← expectLit "if".data (l.dropWhile isPySpace)
    let l2 ← expectPlus isPySpace l1
    let l3 ← expectLit "__name__".data l2
    let l4 ← expectLit "==".data (l3.dropWhile isPySpace)
    let l5 ← expectOne (fun c => c == '\'' || c == '"') (l4.dropWhile isPySpace)
    let l6 ← expectLit "__main__".data l5
    let l7 ← expectOne (fun c => c == '\'' || c == '"') l6
    let _ ← expectOne (· == ':') (l7.dropWhile isPySpace)
    pure ()).isSome

/-- `^\s*@\w+` -/
def patDecorator (l : List Char) : Bool :=
  (do
    let l1 ← expectOne (· == '@') (l.dropWhile isPySpace)
    let _ ← expectPlus isWordChar l1
    pure ()).isSome

/-- `^\s*#\s*\w+` -/
def patComment (l : List Char) : Bool :=
  (do
    let l1 ← expectOne (· == '#') (l.dropWhile isPySpace)
    let _ ← expectPlus isWordChar (l1.dropWhile isPySpace)
    pure ()).isSome

/-- A line matches when any of the five patterns matches (the source breaks at
the first match, which yields the same boolean). -/
def matchesAnyPattern (l : List Char) : Bool :=
  patDef l || patClass l || patMain l || patDecorator l || patComment l

/-- The "at least 5 lines apart" coalescing: keep a candidate when its line
index is at least 5 beyond the last kept one.  `line_start_positions.index(p)`
in the source recovers exactly the line index carried here, since line start
positions are strictly increasing.  Pairs are `(lineIdx, startPos)`. -/
def filterCloseAux (prevLine : Nat) : List (Nat × Nat) → List (Nat × Nat)
  | [] => []
  | q :: rest =>
    if 5 ≤ q.1 - prevLine then q :: filterCloseAux q.1 rest
    else filterCloseAux prevLine rest

/-- `DocumentProcessor._find_code_chunk_points`. -/
def find_code_chunk_points (code : List Char) : List Nat :=
  let lws := linesWithStarts code
  let cands := (lws.enum.filter (fun p => matchesAnyPattern p.2.2)).map
    (fun p => (p.1, p.2.1))
  match cands with
  | [] => []
  | p :: rest => p.2 :: (filterCloseAux p.1 rest).map (fun q => q.2)

/-! ## `DocumentProcessor._character_chunk`

The loop body is split into `nextEnd` (the boundary search) and
`next_start` (the overlap step-back).  The loop itself is `ccAux`, driven by
explicit fuel; `none` marks fuel exhaustion, i.e. the modelled loop did not
finish within the given number of iterations.  `character_chunk` supplies
`text.length + 1` units of fuel, which suffices whenever `chunk_size ≥ 1`
(claim C10); with `chunk_size = 0` the Python loop itself diverges. -/

/-- One boundary search of `_character_chunk`:
`end = min(start + cs, len)`, then prefer a sentence boundary
(`rfind('.')`), then a word boundary (`rfind(' ')`), each accepted only
strictly beyond `start + cs/2`. -/
def nextEnd (cs : Nat) (text : List Char) (start : Nat) : Nat :=
  let e0 := min (start + cs) text.length
  if e0 < text.length then
    let sb := pyRfind '.' start e0 text 0
    if 2 * sb > 2 * (start : Int) + (cs : Int) then (sb + 1).toNat
    else
      let sp := pyRfind ' ' start e0 text 0
      if 2 * sp > 2 * (start : Int) + (cs : Int) then sp.toNat
      else e0
  else e0

/-- `start = end - self.overlap if end - self.overlap > start else end`. -/
def next_start (cs ov : Nat) (text : List Char) (start : Nat) : Nat :=
  let e := nextEnd cs text start
  if start + ov < e then e - ov else e

/-- The `while start < len(text)` loop of `_character_chunk`.  The final
`if start >= len(text) or (end == len(text) and chunk_num > 1): break` test
uses the already incremented `chunk_num`. -/
def ccAux (cs ov : Nat) (m : Metadata) (text : List Char) :
    Nat → Nat → Nat → Option (List PreChunk)
  | 0, _, _ => none
  | fuel + 1, start, num =>
    if start < text.length then
      let e := nextEnd cs text start
      let c : PreChunk := ⟨pyStrip (listSlice text start e), { m with chunk := some num }⟩
      let start' := next_start cs ov text start
      if text.length ≤ start' ∨ (e = text.length ∧ 1 < num + 1) then some [c]
      else (ccAux cs ov m text fuel start' (num + 1)).map (c :: ·)
    else some []

/-- `DocumentProcessor._character_chunk` (chunk numbers restart at 1). -/
def character_chunk (cs ov : Nat) (m : Metadata) (text : List Char) : List PreChunk :=
  (ccAux cs ov m text (text.length + 1) 0 1).getD []

/-! ## `DocumentProcessor._chunk_code` -/

/-- State of the chunk-point loop in `_chunk_code`. -/
structure CState where
  chunks : List PreChunk
  start : Nat
  num : Nat
deriving Repr

/-- One iteration of the `for point in chunk_points` loop.  The minimum-size
test `point - start_idx >= chunk_size / 2` is the exact integer form
`2*(point - start) ≥ cs`; `max(0, point - overlap)` is `Nat` truncated
subtraction. -/
def chunk_code_step (cs ov : Nat) (m : Metadata) (code : List Char)
    (st : CState) (point : Nat) : CState :=
  if (cs : Int) ≤ 2 * ((point : Int) - (st.start : Int)) then
    { chunks := st.chunks ++ [⟨listSlice code st.start point, { m with chunk := some st.num }⟩],
      start := point - ov,
      num := st.num + 1 }
  else st

/-- The final-chunk append of `_chunk_code`
(`if start_idx < len(code): chunks.append(...)`). -/
def chunk_code_finish (m : Metadata) (code : List Char) (st : CState) : List PreChunk :=
  if st.start < code.length then
    st.chunks ++ [⟨code.drop st.start, { m with chunk := some st.num }⟩]
  else st.chunks

/-- `DocumentProcessor._chunk_code`. -/
def chunk_code (cs ov : Nat) (m : Metadata) (code : List Char) : List PreChunk :=
  if (find_code_chunk_points code).isEmpty then character_chunk cs ov m code
  else
    chunk_code_finish m code
      ((find_code_chunk_points code).foldl (chunk_code_step cs ov m code) ⟨[], 0, 1⟩)

/-! ## `DocumentProcessor._split_large_paragraph` and `_chunk_text` -/

/-- Buffer state shared by the paragraph and sentence accumulation loops. -/
structure TState where
  chunks : List PreChunk
  current : List Char
  num : Nat
deriving Repr

/-- One iteration of the sentence loop of `_split_large_paragraph`.  When a
single sentence overflows an empty buffer it is character-chunked (with
numbering restarting at 1) and `chunk_num` is not advanced, exactly as in the
source. -/
def slp_step (cs ov : Nat) (m : Metadata) (st : TState) (s : List Char) : TState :=
  if cs < st.current.length + s.length then
    if st.current.isEmpty then
      { st with chunks := st.chunks ++ character_chunk cs ov m s }
    else
      { chunks := st.chunks ++ [⟨pyStrip st.current, { m with chunk := some st.num }⟩],
        current := s ++ [' '],
        num := st.num + 1 }
  else { st with current := st.current ++ s ++ [' '] }

/-- Trailing flush shared by `_split_large_paragraph` and `_chunk_text`:
`if current_chunk.strip(): chunks.append(...)`. -/
def finish_chunks (m : Metadata) (st : TState) : List PreChunk :=
  if (pyStrip st.current).isEmpty then st.chunks
  else st.chunks ++ [⟨pyStrip st.current, { m with chunk := some st.num }⟩]

/-- `DocumentProcessor._split_large_paragraph`. -/
def split_large_paragraph (cs ov : Nat) (m : Metadata) (para : List Char)
    (startNum : Nat) : List PreChunk :=
  finish_chunks m ((sentSplit para).foldl (slp_step cs ov m) ⟨[], [], startNum⟩)

/-- The `if current_chunk: chunks.append(...)` flush inside the paragraph
loop of `_chunk_text`.  Note that the buffer is *not* cleared here, exactly
as in the source. -/
def flush_buffer (m : Metadata) (st : TState) : TState :=
  if st.current.isEmpty then st
  else
    { st with
      chunks := st.chunks ++ [⟨pyStrip st.current, { m with chunk := some st.num }⟩],
      num := st.num + 1 }

/-- One iteration of the paragraph loop of `_chunk_text`.  In the
oversized-paragraph branch the source flushes the buffer but never resets
`current_chunk`; the model reproduces this behaviour faithfully. -/
def ct_step (cs ov : Nat) (m : Metadata) (st : TState) (para : List Char) : TState :=
  if cs < st.current.length + para.length then
    if cs < para.length then
      { flush_buffer m st with
        chunks := (flush_buffer m st).chunks
          ++ split_large_paragraph cs ov m para (flush_buffer m st).num,
        num := (flush_buffer m st).num
          + (split_large_paragraph cs ov m para (flush_buffer m st).num).length }
    else { flush_buffer m st with current := para ++ "\n\n".data }
  else { st with current := st.current ++ para ++ "\n\n".data }

/-- `DocumentProcessor._chunk_text`. -/
def chunk_text (cs ov : Nat) (m : Metadata) (text : List Char) : List PreChunk :=
  finish_chunks m ((paraSplit text).foldl (ct_step cs ov m) ⟨[], [], 1⟩)

/-! ## `DocumentProcessor._chunk_sections` -/

/-- The per-section dispatch of `_chunk_sections`: code sections with
`len(text) <= chunk_size * 1.5` (exactly: `2*len ≤ 3*cs`) are emitted as a
single chunk with the section metadata unchanged; larger code sections go to
`chunk_code`; text sections go to `chunk_text`. -/
def chunk_section (cs ov : Nat) (s : DocSection) : List PreChunk :=
  if s.meta.chunk_type = "code" then
    if 2 * s.text.length ≤ 3 * cs then [⟨s.text, s.meta⟩]
    else chunk_code cs ov s.meta s.text
  else chunk_text cs ov s.meta s.text

/-- `DocumentProcessor._chunk_sections` (chunks of all sections in order). -/
def chunk_sections_pre (cs ov : Nat) (sections : List DocSection) : List PreChunk :=
  sections.foldl (fun acc s => acc ++ chunk_section cs ov s) []

/-- Attach the fresh identifiers (uuid4 modelled as a fresh-number supply). -/
def with_ids (l : List PreChunk) : List Chunk :=
  l.enum.map (fun p => ⟨p.1, p.2.text, p.2.meta⟩)

/-! ## The embedding cache (`ptsearch/embedding.py`)

The file-per-entry cache directory is modelled as an association list from
cache paths to stored entries.  `_manage_cache_size` (eviction) operates on
file sizes and access times recorded by the filesystem, which this content
view does not carry; it is modelled separately below on `CacheFile` records,
and for the round-trip claim eviction appears as an explicit key-removal
operation. -/

/-- The JSON object written by `_save_to_cache`. -/
structure CacheEntry where
  text_preview : String
  model : String
  embedding : Vec
  timestamp : ℚ
deriving DecidableEq, Repr

/-- The cache directory: one entry per path. -/
abbrev CacheStore := List (String × CacheEntry)

/-- `EmbeddingGenerator._get_cache_path` (the constant directory prefix is
dropped; `hash` stands for `hashlib.sha256(text.encode()).hexdigest()`). -/
def get_cache_path (hash : String → String) (text : String) : String :=
  hash text ++ ".json"

/-- Look a path up in the store. -/
def cache_lookup (s : CacheStore) (k : String) : Option CacheEntry :=
  (s.find? (fun p => p.1 = k)).map (fun p => p.2)

/-- Remove every entry stored at a path. -/
def cache_remove (k : String) : CacheStore → CacheStore
  | [] => []
  | p :: rest => if p.1 = k then cache_remove k rest else p :: cache_remove k rest

/-- Write (create or overwrite) the entry at a path. -/
def cache_set (s : CacheStore) (k : String) (e : CacheEntry) : CacheStore :=
  (k, e) :: cache_remove k s

/-- Delete the entry at a path, if present. -/
def cache_del (s : CacheStore) (k : String) : CacheStore :=
  cache_remove k s

/-- `EmbeddingGenerator._get_from_cache` (the stored `"embedding"` field). -/
def get_from_cache (hash : String → String) (s : CacheStore) (text : String) :
    Option Vec :=
  (cache_lookup s (get_cache_path hash text)).map (fun e => e.embedding)

/-- The `text_preview` field: `text[:100] + "..." if len(text) > 100 else text`. -/
def preview_of (text : String) : String :=
  if 100 < text.length then text.take 100 ++ "..." else text

/-- `EmbeddingGenerator._save_to_cache` (`now` models `time.time()`). -/
def save_to_cache (hash : String → String) (model text : String) (embedding : Vec)
    (now : ℚ) (s : CacheStore) : CacheStore :=
  cache_set s (get_cache_path hash text)
    ⟨preview_of text, model, embedding, now⟩

/-! ## `EmbeddingGenerator.generate_embeddings`

`api` is the backend call `client.embeddings.create`: `none` models a raised
exception (caught by the source), `some embs` a successful response.  The
rate-limit sleep and the hit/miss counters are observability only and are
omitted.  A batch-local embedding slot holding Python `None` is `none`; the
function can therefore return `none` holes, exactly as the source can return
lists containing `None`. -/

/-- Python truthiness of `cached_embedding`: a non-empty list. -/
def vec_truthy : Option Vec → Bool
  | some (_ :: _) => true
  | _ => false

/-- The cache-check loop: returns the `batch_embeddings` list after the loop
(hits appended in encounter order) and the `(uncached_texts, uncached_indices)`
pairs in order.  `j` is the batch-local index of the head. -/
def cache_pass (hash : String → String) (s : CacheStore) :
    List String → Nat → List (Option Vec) × List (String × Nat)
  | [], _ => ([], [])
  | t :: rest, j =>
    let r := cache_pass hash s rest (j + 1)
    match get_from_cache hash s t with
    | some (v :: vs) => ((some (v :: vs)) :: r.1, r.2)
    | _ => (r.1, (t, j) :: r.2)

/-- `while len(batch_embeddings) <= idx: batch_embeddings.append(None)` then
`batch_embeddings[idx] = v`. -/
def set_pad (be : List (Option Vec)) (idx : Nat) (v : Option Vec) : List (Option Vec) :=
  let padded := if be.length ≤ idx then be ++ List.replicate (idx + 1 - be.length) none else be
  padded.set idx v

/-- Scatter the api embeddings to their recorded batch-local indices. -/
def place_all (be : List (Option Vec)) (pairs : List (Nat × Vec)) : List (Option Vec) :=
  pairs.foldl (fun acc p => set_pad acc p.1 (some p.2)) be

/-- On backend failure: a zero vector at every uncached index. -/
def place_zeros (be : List (Option Vec)) (idxs : List Nat) : List (Option Vec) :=
  idxs.foldl (fun acc i => set_pad acc i (some zeroVector)) be

/-- `for j in range(len(batch_texts)): if j >= len(be) or be[j] is None:
be.append(zero)` — note the appends go to the end of the list. -/
def fill_pass (be : List (Option Vec)) (n : Nat) : List (Option Vec) :=
  (List.range n).foldl
    (fun acc j =>
      match acc.get? j with
      | some (some _) => acc
      | _ => acc ++ [some zeroVector])
    be

/-- One batch of `generate_embeddings`: cache check, backend call on the
uncached subset, caching of fresh vectors, scatter, fill, truncate. -/
def process_batch (hash : String → String) (api : List String → Option (List Vec))
    (model : String) (use_cache : Bool) (now : ℚ) (s : CacheStore)
    (batch : List String) : List (Option Vec) × CacheStore :=
  let cp :=
    if use_cache then cache_pass hash s batch 0
    else ([], batch.enum.map (fun p => (p.2, p.1)))
  let be0 := cp.1
  let uncached := cp.2
  let step :=
    if uncached.isEmpty then (be0, s)
    else
      match api (uncached.map (fun p => p.1)) with
      | some embs =>
        let s' :=
          if use_cache then
            ((uncached.map (fun p => p.1)).zip embs).foldl
              (fun st p => save_to_cache hash model p.1 p.2 now st) s
          else s
        (place_all be0 (((uncached.map (fun p => p.2)).zip embs)), s')
      | none => (place_zeros be0 (uncached.map (fun p => p.2)), s)
  let be2 := fill_pass step.1 batch.length
  (be2.take batch.length, step.2)

/-- `texts[i:i+batch_size]` slices of the input (`range(0, len, batch_size)`);
with `batch_size = 0` the source raises `ValueError` before producing
anything, modelled as the empty batch list. -/
def list_chunks_aux {α : Type} (bs : Nat) : Nat → List α → List (List α)
  | _, [] => []
  | 0, _ :: _ => []
  | fuel + 1, a :: rest =>
    (a :: rest).take bs :: list_chunks_aux bs fuel ((a :: rest).drop bs)

/-- With `bs ≥ 1` each step drops at least one element, so `l.length` units of
fuel always reach the empty list. -/
def list_chunks {α : Type} (bs : Nat) (l : List α) : List (List α) :=
  if bs = 0 then [] else list_chunks_aux bs l.length l

/-- `EmbeddingGenerator.generate_embeddings`: fold the batches, threading the
cache store and concatenating the per-batch results. -/
def generate_embeddings (hash : String → String)
    (api : List String → Option (List Vec)) (model : String) (use_cache : Bool)
    (now : ℚ) (texts : List String) (batch_size : Nat) (s0 : CacheStore) :
    List (Option Vec) × CacheStore :=
  (list_chunks batch_size texts).foldl
    (fun st batch =>
      let r := process_batch hash api model use_cache now st.2 batch
      (st.1 ++ r.1, r.2))
    ([], s0)

/-! ## Cache operations for the round-trip claim -/

/-- Operations that may hit the cache between a write and a read: further
writes (`_save_to_cache`) and evictions (`os.remove` of entry files in
`_manage_cache_size`). -/
inductive CacheOp where
  | save (text : String) (v : Vec) (now : ℚ)
  | evict (keys : List String)

/-- Whether an operation touches the entry stored at path `k`. -/
def op_touches (hash : String → String) (k : String) : CacheOp → Bool
  | .save t _ _ => get_cache_path hash t == k
  | .evict ks => ks.contains k

/-- Apply one operation to the store. -/
def apply_op (hash : String → String) (model : String) (s : CacheStore) :
    CacheOp → CacheStore
  | .save t v now => save_to_cache hash model t v now s
  | .evict ks => ks.foldl cache_del s

/-- Apply a sequence of operations. -/
def apply_ops (hash : String → String) (model : String) (s : CacheStore)
    (ops : List CacheOp) : CacheStore :=
  ops.foldl (apply_op hash model) s

/-! ## `EmbeddingGenerator._manage_cache_size`

The eviction step sees each cache file through `os.stat`: path, byte size and
last-access time.  Deletion failures are swallowed by the source; the claim
conditions on all deletions succeeding, which is what this pure model does.
Python's `list.sort` is stable; tie order among equal access times does not
affect the stated invariant, so `List.insertionSort` is used. -/

/-- One cache file as listed by `_manage_cache_size`. -/
structure CacheFile where
  path : String
  size : Nat
  last_access : ℚ
deriving DecidableEq, Repr

/-- Ordering by last-access time (oldest first). -/
def la_le (a b : CacheFile) : Prop := a.last_access ≤ b.last_access

instance : DecidableRel la_le := fun a b =>
  inferInstanceAs (Decidable (a.last_access ≤ b.last_access))

instance : IsTotal CacheFile la_le :=
  ⟨fun a b => le_total a.last_access b.last_access⟩

instance : IsTrans CacheFile la_le :=
  ⟨fun _ _ _ h1 h2 => le_trans h1 h2⟩

/-- Total stored byte size. -/
def total_size (files : List CacheFile) : Nat :=
  (files.map (fun f => f.size)).sum

/-- The removal loop: `if bytes_removed >= bytes_to_remove: break` is checked
before each deletion; returns (removed files, remaining files). -/
def evict_loop (need : Nat) : Nat → List CacheFile → List CacheFile × List CacheFile
  | _, [] => ([], [])
  | acc, f :: rest =>
    if need ≤ acc then ([], f :: rest)
    else
      let r := evict_loop need (acc + f.size) rest
      (f :: r.1, r.2)

/-- `EmbeddingGenerator._manage_cache_size` (parameterised over the configured
ceiling; the source fixes `max_bytes = int(MAX_CACHE_SIZE_GB * 1024**3)`).
Returns (removed files, remaining files). -/
def manage_cache_size (max_bytes : Nat) (files : List CacheFile) :
    List CacheFile × List CacheFile :=
  if max_bytes < total_size files then
    evict_loop (total_size files - max_bytes) 0 (List.insertionSort la_le files)
  else ([], files)

/-! ## `ResultFormatter` (`ptsearch/formatter.py`)

`format_results` is embedded on the flat-parallel-arrays shape (the
newer-ChromaDB branch of the source); a `none` metadata models a non-dict
metadata value, a `none` distance a non-numeric distance.  Scores are `ℚ`;
the boost factor `1.2` is `6/5`, and every comparison the claims depend on is
robust to float rounding. -/

/-- A metadata dict as it arrives from the index (each field may be absent). -/
structure FMeta where
  title : Option String
  source : Option String
  chunk_type : Option String
  language : Option String
deriving DecidableEq, Repr

/-- One formatted result. -/
structure SResult where
  title : String
  snippet : String
  source : String
  chunk_type : String
  language : String
  score : ℚ
deriving DecidableEq, Repr

/-- The response dict built by `format_results` / `rank_results`. -/
structure SearchResponse where
  results : List SResult
  query : String
  count : Nat
  is_code_query : Option Bool
deriving DecidableEq, Repr

/-- `zip` over three parallel lists (Python `zip` truncates). -/
def zip3 {α β γ : Type} : List α → List β → List γ → List (α × β × γ)
  | a :: as, b :: bs, c :: cs => (a, b, c) :: zip3 as bs cs
  | _, _, _ => []

/-- Format one `(doc, metadata, distance)` triple at result index `i`. -/
def format_one (i : Nat) (doc : String) (md : Option FMeta) (dist : Option ℚ) :
    SResult :=
  let snippet := if 250 < doc.length then doc.take 250 ++ "..." else doc
  let similarity : ℚ := match dist with | some d => 1 - d | none => 1 / 2
  match md with
  | some m =>
    { title := m.title.getD ("Result " ++ toString (i + 1))
      snippet := snippet
      source := m.source.getD ""
      chunk_type := m.chunk_type.getD "unknown"
      language := m.language.getD ""
      score := similarity }
  | none =>
    { title := "Result " ++ toString (i + 1)
      snippet := snippet
      source := ""
      chunk_type := "unknown"
      language := ""
      score := similarity }

/-- `ResultFormatter.format_results` on flat parallel arrays. -/
def format_results (documents : List String) (metadatas : List (Option FMeta))
    (distances : List (Option ℚ)) (query : String) : SearchResponse :=
  let formatted := (zip3 documents metadatas distances).enum.map
    (fun p => format_one p.1 p.2.1 p.2.2.1 p.2.2.2)
  { results := formatted, query := query, count := formatted.length,
    is_code_query := none }

/-- The intent boost of `rank_results` (`boost_factor = 1.2`, clamped at 1). -/
def boost_result (is_code_query : Bool) (r : SResult) : SResult :=
  if is_code_query ∧ r.chunk_type = "code" then
    { r with score := min 1 (r.score * (6 / 5)) }
  else if ¬ is_code_query ∧ r.chunk_type = "text" then
    { r with score := min 1 (r.score * (6 / 5)) }
  else r

/-- Stable insertion for the descending re-sort (`sort(key=score,
reverse=True)` is stable: an earlier element goes before later ones of equal
score). -/
def insert_desc (r : SResult) : List SResult → List SResult
  | [] => [r]
  | x :: xs => if x.score ≤ r.score then r :: x :: xs else x :: insert_desc r xs

/-- Stable descending sort by score. -/
def sort_desc (l : List SResult) : List SResult :=
  l.foldr insert_desc []

/-- `ResultFormatter.rank_results`. -/
def rank_results (resp : SearchResponse) (is_code_query : Bool) : SearchResponse :=
  if resp.results.isEmpty then resp
  else
    { resp with
      results := sort_desc (resp.results.map (boost_result is_code_query))
      is_code_query := some is_code_query }

/-! ## Concrete instances used by the theorems below -/

/-- A text-section metadata record as produced by `_parse_markdown`. -/
def sampleTextMeta : Metadata := ⟨"T", "src.md", "text", none, none⟩

/-- A code-section metadata record as produced by `_parse_markdown`. -/
def sampleCodeMeta : Metadata := ⟨"T", "src.md", "code", some "python", none⟩

/-- A code block whose only boundary point is the `def` line at offset 0 and
whose length (65) exceeds `1.5 * chunk_size` for `chunk_size = 40`. -/
def sampleCode : List Char :=
  ("def a():\n x = 1\n x = 2\n x = 3\n x = 4\n x = 5\n x = 6\n x = 7\n x = 8\n").data

/-- A stand-in for the sha256 hex digest (any deterministic function). -/
def hash0 : String → String := fun t => t

/-- A succeeding backend: embeds `"a"` as `[1]` and anything else as `[3]`. -/
def api_ok : List String → Option (List Vec) :=
  fun ts => some (ts.map (fun t => if t = "a" then [(1 : ℚ)] else [(3 : ℚ)]))

/-- A backend whose call raises (the batch of 3 scenario). -/
def api_fail : List String → Option (List Vec) := fun _ => none

/-- A cache holding a real vector `[2]` for the text `"b"` only. -/
def store_b : CacheStore := save_to_cache hash0 "m" "b" [(2 : ℚ)] 0 []

/-- Index metadata of a code candidate. -/
def mdCode : Option FMeta := some ⟨some "C", some "s", some "code", some "py"⟩

/-- Index metadata of a text candidate. -/
def mdText : Option FMeta := some ⟨some "P", some "s", some "text", none⟩

/-- The chunk's metadata is the ambient metadata plus a 1-based sequence
number (`{**metadata, 'chunk': k}` with `k ≥ 1`). -/
def seqMeta (m : Metadata) (c : PreChunk) : Prop :=
  ∃ k, 1 ≤ k ∧ c.meta = { m with chunk := some k }

/-- A chunk either kept its section metadata unchanged (intact code path) or
got a 1-based `chunk` sequence number added to it (every splitting path). -/
def metaFrom (m : Metadata) (c : PreChunk) : Prop :=
  c.meta = m ∨ seqMeta m c

/-! ## Theorems -/

/-- Claim C1 (code bug).  `generate_embeddings` on the batch
`["a", "b", "c"]` with `"b"` cached as `[2]` and a *succeeding* backend does
not return vectors aligned with input order: the cache hit is appended at
list position 0 instead of its batch index 1, the scattered backend vector
for `"a"` then overwrites it, and position 1 ends up holding Python `None`
(`none`).  The claimed aligned result would be `[some [1], some [2], some [3]]`. -/
theorem generate_embeddings_misaligns_cached :
    (generate_embeddings hash0 api_ok "m" true 0 ["a", "b", "c"] 20 store_b).1
      = [some [(1 : ℚ)], none, some [(3 : ℚ)]] := by rfl

/-- Claim C2 (code bug).  In the degraded-backend scenario (backend raises on
a batch of 3 texts of which `"b"`, at position 1, is cached), the caller does
not receive the cached entry's real vector at its position: the zero-vector
scattered to index 0 overwrites the misplaced cache hit, and position 1 holds
`None`.  The claimed result would be `[zero, some [2], zero]`. -/
theorem generate_embeddings_degraded_misaligns :
    (generate_embeddings hash0 api_fail "m" true 0 ["a", "b", "c"] 20 store_b).1
      = [some zeroVector, none, some zeroVector] := by rfl

/-- Claim C3 (code bug).  `_chunk_text` flushes the paragraph buffer before
sub-splitting an oversized paragraph but never resets `current_chunk`, so the
flushed content is emitted again later and out of source order: on
`"aaaa\n\nbbbbbbbbbbbb\n\ncc"` with `chunk_size = 10`, `overlap = 2` the
buffer `"aaaa"` appears both as the first chunk and inside the final chunk
(the source holds 4 `'a'` characters, the emitted chunks 8), duplication that
no overlap window explains (the overlapping character windows hold only
`'b'`). -/
theorem chunk_text_duplicates_and_reorders :
    (chunk_text 10 2 sampleTextMeta ("aaaa\n\nbbbbbbbbbbbb\n\ncc").data).map
        (fun c => c.text)
      = [("aaaa").data, ("bbbbbbbbbb").data, ("bbbb").data, ("aaaa\n\ncc").data]
    ∧ ("aaaa\n\nbbbbbbbbbbbb\n\ncc").data.count 'a' = 4
    ∧ (((chunk_text 10 2 sampleTextMeta ("aaaa\n\nbbbbbbbbbbbb\n\ncc").data).map
        (fun c => c.text)).flatten).count 'a' = 8 := by decide

/-- Claim C4, counterexample.  A 65-character code section (`> 1.5 × 40`)
whose only boundary point (the `def` line at offset 0) lies closer than
`chunk_size / 2` to the start is emitted by the chunker as a single chunk,
contradicting "the output for that section always contains at least two
chunks". -/
theorem oversized_code_single_chunk :
    (chunk_sections_pre 40 10 [⟨sampleCode, sampleCodeMeta⟩]).length = 1
    ∧ 3 * 40 < 2 * sampleCode.length := by decide

/-- Claim C5, counterexample.  A code section short enough to be emitted
intact (`2*5 ≤ 3*10`) yields a chunk whose metadata carries no sequence
number at all (`chunk = none`), contradicting "a sequence number ... present
on every chunk (including code sections emitted intact as a single chunk)". -/
theorem intact_code_chunk_missing_seq :
    (chunk_sections_pre 10 2 [⟨("x = 1").data, sampleCodeMeta⟩]).map
        (fun c => c.meta.chunk) = [none] := by decide

/-- Claim C7, counterexample.  On the section text `"\n\nxxxxxxx"` with
`chunk_size = 5`, `overlap = 2` the chunker emits a chunk with empty text:
the paragraph buffer holding only `"\n\n"` is truthy, gets flushed, and
`strip` reduces it to the empty string.  This contradicts
"every chunk ... has len(text) > 0". -/
theorem chunk_text_empty_chunk :
    (chunk_text 5 2 sampleTextMeta ("\n\nxxxxxxx").data).map
        (fun c => c.text.length) = [0, 5, 4] := by decide

/-- Claim C8, counterexample.  With the assignment code-distance = 0.3,
text-distance = 0.1 under a code-intent query, the boosted code score
`min(1, 0.7 * 1.2) = 21/25` does *not* exceed the unboosted text score
`9/10`, and the ranked output places the text candidate first — refuting the
"in either assignment" half of the claim. -/
theorem rank_results_boost_insufficient :
    ((rank_results
        (format_results ["codedoc", "textdoc"] [mdCode, mdText]
          [some (3 / 10), some (1 / 10)] "q") true).results).map
        (fun r => (r.chunk_type, r.score))
      = [("text", (9 : ℚ) / 10), ("code", (21 : ℚ) / 25)]
    ∧ ((21 : ℚ) / 25) < (9 : ℚ) / 10 := by
  refine ⟨?_, by norm_num⟩
  norm_num [rank_results, format_results, format_one, zip3, boost_result,
    sort_desc, insert_desc, mdCode, mdText, List.enum, List.enumFrom, min_def,
    show ¬("text" = "code") by decide]

/-- Claim C8, amended.  With the code candidate at distance 0.1 and the text
candidate at distance 0.3 under a code-intent query, the code candidate's
boosted score `min(1, 0.9 * 1.2) = 1` strictly exceeds the text candidate's
unboosted score `7/10`, and the ranked output places the code candidate
first. -/
theorem rank_results_code_first_small_distance :
    ((rank_results
        (format_results ["codedoc", "textdoc"] [mdCode, mdText]
          [some (1 / 10), some (3 / 10)] "q") true).results).map
        (fun r => (r.chunk_type, r.score))
      = [("code", (1 : ℚ)), ("text", (7 : ℚ) / 10)]
    ∧ ((7 : ℚ) / 10) < 1 := by
  refine ⟨?_, by norm_num⟩
  norm_num [rank_results, format_results, format_one, zip3, boost_result,
    sort_desc, insert_desc, mdCode, mdText, List.enum, List.enumFrom, min_def,
    show ¬("text" = "code") by decide]

/-! ### Eviction (claim C6) -/

theorem total_size_cons (f : CacheFile) (l : List CacheFile) :
    total_size (f :: l) = f.size + total_size l := by
  simp [total_size]

theorem total_size_append (l1 l2 : List CacheFile) :
    total_size (l1 ++ l2) = total_size l1 + total_size l2 := by
  simp [total_size]

/-- The two halves returned by `evict_loop` partition its input in order. -/
theorem evict_loop_append (need : Nat) :
    ∀ (l : List CacheFile) (acc : Nat),
      (evict_loop need acc l).1 ++ (evict_loop need acc l).2 = l := by
  intro l
  induction l with
  | nil => intro acc; rfl
  | cons f rest ih =>
    intro acc
    simp only [evict_loop]
    split
    · rfl
    · simp [ih (acc + f.size)]

/-- When the loop stops it has removed enough bytes, unless it ran out of
files. -/
theorem evict_loop_enough (need : Nat) :
    ∀ (l : List CacheFile) (acc : Nat),
      need ≤ acc + total_size (evict_loop need acc l).1
      ∨ (evict_loop need acc l).2 = [] := by
  intro l
  induction l with
  | nil => intro acc; right; rfl
  | cons f rest ih =>
    intro acc
    simp only [evict_loop]
    split
    next h => left; simpa [total_size] using h
    next h =>
      rcases ih (acc + f.size) with h1 | h1
      · left
        rw [total_size_cons]
        omega
      · right
        simpa using h1

/-- Claim C6 (confirmed).  After `_manage_cache_size` (with every individual
deletion succeeding, as in this pure model), the total stored byte size of the
remaining entries is at most the configured ceiling, and no removed entry has
a strictly more recent last-access time than any entry that remained. -/
theorem manage_cache_size_bound_and_lru (max_bytes : Nat) (files : List CacheFile) :
    total_size (manage_cache_size max_bytes files).2 ≤ max_bytes
    ∧ ∀ r ∈ (manage_cache_size max_bytes files).1,
        ∀ q ∈ (manage_cache_size max_bytes files).2,
          r.last_access ≤ q.last_access := by
  unfold manage_cache_size
  split
  next hover =>
    have hperm : (List.insertionSort la_le files).Perm files :=
      List.perm_insertionSort la_le files
    have htot : total_size (List.insertionSort la_le files) = total_size files := by
      simpa [total_size] using (hperm.map (fun f => f.size)).sum_eq
    have happ :=
      evict_loop_append (total_size files - max_bytes) (List.insertionSort la_le files) 0
    have henough :=
      evict_loop_enough (total_size files - max_bytes) (List.insertionSort la_le files) 0
    have hsort : List.Sorted la_le (List.insertionSort la_le files) :=
      List.sorted_insertionSort la_le files
    have hsplit :
        total_size
            (evict_loop (total_size files - max_bytes) 0 (List.insertionSort la_le files)).1
          + total_size
            (evict_loop (total_size files - max_bytes) 0 (List.insertionSort la_le files)).2
          = total_size files := by
      rw [← total_size_append, happ, htot]
    constructor
    · rcases henough with h1 | h1
      · omega
      · rw [h1]
        simp [total_size]
    · intro r hr q hq
      have hpw :
          List.Pairwise la_le
            ((evict_loop (total_size files - max_bytes) 0
                (List.insertionSort la_le files)).1
              ++ (evict_loop (total_size files - max_bytes) 0
                (List.insertionSort la_le files)).2) := by
        rw [happ]
        exact hsort
      exact (List.pairwise_append.mp hpw).2.2 r hr q hq
  next hover =>
    constructor
    · simpa using Nat.le_of_not_lt hover
    · intro r hr
      simp at hr

/-! ### Cache round-trip (claim C9) -/

theorem cache_find_remove_ne (k k' : String) (hne : k' ≠ k) :
    ∀ s : CacheStore,
      ((cache_remove k' s).find? (fun p => p.1 = k))
        = s.find? (fun p => p.1 = k) := by
  intro s
  induction s with
  | nil => rfl
  | cons x rest ih =>
    by_cases hx : x.1 = k'
    · have hxk : ¬ (x.1 = k) := fun hh => hne (hx ▸ hh)
      simp [cache_remove, hx, List.find?_cons, hxk, ih, hne, Ne.symm hne]
    · by_cases hxk : x.1 = k
      · simp [cache_remove, hx, List.find?_cons, hxk, hne, Ne.symm hne]
      · simp [cache_remove, hx, List.find?_cons, hxk, ih, hne, Ne.symm hne]

theorem cache_lookup_set_self (s : CacheStore) (k : String) (e : CacheEntry) :
    cache_lookup (cache_set s k e) k = some e := by
  simp [cache_lookup, cache_set, List.find?_cons]

theorem cache_lookup_set_ne (s : CacheStore) (k k' : String) (e : CacheEntry)
    (h : k' ≠ k) : cache_lookup (cache_set s k' e) k = cache_lookup s k := by
  simp [cache_lookup, cache_set, List.find?_cons, h, cache_find_remove_ne k k' h s]

theorem cache_lookup_del_ne (s : CacheStore) (k k' : String) (h : k' ≠ k) :
    cache_lookup (cache_del s k') k = cache_lookup s k := by
  simp [cache_lookup, cache_del, cache_find_remove_ne k k' h s]

theorem cache_lookup_del_many (k : String) :
    ∀ (ks : List String) (s : CacheStore), k ∉ ks →
      cache_lookup (ks.foldl cache_del s) k = cache_lookup s k := by
  intro ks
  induction ks with
  | nil => intro s _; rfl
  | cons a rest ih =>
    intro s hk
    simp only [List.mem_cons, not_or] at hk
    simp only [List.foldl_cons]
    rw [ih (cache_del s a) hk.2, cache_lookup_del_ne s k a (Ne.symm hk.1)]

/-- Operations not touching path `k` leave the lookup at `k` unchanged. -/
theorem apply_ops_frame (hash : String → String) (model : String) (k : String) :
    ∀ (ops : List CacheOp) (s : CacheStore),
      (∀ op ∈ ops, op_touches hash k op = false) →
      cache_lookup (apply_ops hash model s ops) k = cache_lookup s k := by
  intro ops
  induction ops with
  | nil => intro s _; rfl
  | cons op rest ih =>
    intro s h
    have hop := h op (List.mem_cons_self _ _)
    have hrest : ∀ o ∈ rest, op_touches hash k o = false :=
      fun o ho => h o (List.mem_cons_of_mem _ ho)
    show cache_lookup (apply_ops hash model (apply_op hash model s op) rest) k
      = cache_lookup s k
    rw [ih (apply_op hash model s op) hrest]
    cases op with
    | save t v now =>
      have hne : get_cache_path hash t ≠ k := by
        simpa [op_touches] using hop
      exact cache_lookup_set_ne s k _ _ hne
    | evict ks =>
      have hk : k ∉ ks := by
        simpa [op_touches] using hop
      exact cache_lookup_del_many k ks s hk

/-- Claim C9 (confirmed).  After `_save_to_cache(text, v)` succeeds,
`_get_from_cache(text)` returns `v`, and it keeps returning `v` across any
further cache operations that neither overwrite nor evict that entry (i.e.
until the entry is evicted); moreover the cache key is a deterministic
function of the exact text, so the same text always maps to the same key. -/
theorem cache_put_get_roundtrip (hash : String → String) (model : String)
    (s : CacheStore) (text : String) (v : Vec) (now : ℚ) (ops : List CacheOp)
    (h : ∀ op ∈ ops, op_touches hash (get_cache_path hash text) op = false) :
    get_from_cache hash
        (apply_ops hash model (save_to_cache hash model text v now s) ops) text
      = some v
    ∧ ∀ t1 t2 : String, t1 = t2 → get_cache_path hash t1 = get_cache_path hash t2 := by
  constructor
  · unfold get_from_cache
    rw [apply_ops_frame hash model (get_cache_path hash text) ops _ h]
    unfold save_to_cache
    rw [cache_lookup_set_self]
    rfl
  · intro t1 t2 ht
    rw [ht]

/-- Witness for C9: a concrete write of `"a" ↦ [1]` survives a later write of
a different text and an eviction of an unrelated key. -/
theorem cache_put_get_roundtrip_witness :
    get_from_cache hash0
        (apply_ops hash0 "m" (save_to_cache hash0 "m" "a" [(1 : ℚ)] 0 [])
          [CacheOp.save "b" [(2 : ℚ)] 1, CacheOp.evict ["z.json"]]) "a"
      = some [(1 : ℚ)] :=
  (cache_put_get_roundtrip hash0 "m" [] "a" [(1 : ℚ)] 0
      [CacheOp.save "b" [(2 : ℚ)] 1, CacheOp.evict ["z.json"]] (by decide)).1


/-! ### Chunker structural lemmas (claims C4, C5, C7, C10) -/

theorem foldl_inv {α σ : Type} (P : σ → Prop) (f : σ → α → σ)
    (hf : ∀ s a, P s → P (f s a)) :
    ∀ (l : List α) (s : σ), P s → P (l.foldl f s) := by
  intro l
  induction l with
  | nil => intro s h; exact h
  | cons a rest ih => intro s h; exact ih (f s a) (hf s a h)

theorem foldl_append_eq_flatMap (cs ov : Nat) :
    ∀ (sections : List DocSection) (acc : List PreChunk),
      sections.foldl (fun acc s => acc ++ chunk_section cs ov s) acc
        = acc ++ sections.flatMap (chunk_section cs ov) := by
  intro sections
  induction sections with
  | nil => intro acc; simp
  | cons s rest ih =>
    intro acc
    simp only [List.foldl_cons, List.flatMap_cons]
    rw [ih (acc ++ chunk_section cs ov s), List.append_assoc]

/-- Every chunk produced by `ccAux` carries a 1-based sequence number over
the ambient metadata. -/
theorem ccAux_meta (cs ov : Nat) (m : Metadata) (text : List Char) :
    ∀ (fuel start num : Nat) (l : List PreChunk), 1 ≤ num →
      ccAux cs ov m text fuel start num = some l →
      ∀ c ∈ l, seqMeta m c := by
  intro fuel
  induction fuel with
  | zero =>
    intro start num l _ h
    exact absurd h (by simp [ccAux])
  | succ fuel ih =>
    intro start num l hnum h
    simp only [ccAux] at h
    split at h
    · split at h
      · cases h
        intro c hc
        simp only [List.mem_singleton] at hc
        subst hc
        exact ⟨num, hnum, rfl⟩
      · rw [Option.map_eq_some'] at h
        obtain ⟨l', hl', rfl⟩ := h
        intro c hc
        rcases List.mem_cons.mp hc with rfl | hc'
        · exact ⟨num, hnum, rfl⟩
        · exact ih _ (num + 1) l' (by omega) hl' c hc'
    · cases h
      intro c hc
      simp at hc

theorem character_chunk_meta (cs ov : Nat) (m : Metadata) (text : List Char) :
    ∀ c ∈ character_chunk cs ov m text, seqMeta m c := by
  intro c hc
  unfold character_chunk at hc
  cases h : ccAux cs ov m text (text.length + 1) 0 1 with
  | none => rw [h] at hc; simp at hc
  | some l =>
    rw [h] at hc
    simp only [Option.getD_some] at hc
    exact ccAux_meta cs ov m text _ 0 1 l (le_refl 1) h c hc

theorem finish_chunks_meta (m : Metadata) (st : TState)
    (h : 1 ≤ st.num ∧ ∀ c ∈ st.chunks, seqMeta m c) :
    ∀ c ∈ finish_chunks m st, seqMeta m c := by
  intro c hc
  unfold finish_chunks at hc
  split at hc
  · exact h.2 c hc
  · rcases List.mem_append.mp hc with hc' | hc'
    · exact h.2 c hc'
    · simp only [List.mem_singleton] at hc'
      subst hc'
      exact ⟨st.num, h.1, rfl⟩

theorem slp_step_inv (cs ov : Nat) (m : Metadata) (st : TState) (s : List Char)
    (h : 1 ≤ st.num ∧ ∀ c ∈ st.chunks, seqMeta m c) :
    1 ≤ (slp_step cs ov m st s).num
      ∧ ∀ c ∈ (slp_step cs ov m st s).chunks, seqMeta m c := by
  unfold slp_step
  split
  · split
    · refine ⟨h.1, ?_⟩
      intro c hc
      rcases List.mem_append.mp hc with hc' | hc'
      · exact h.2 c hc'
      · exact character_chunk_meta cs ov m s c hc'
    · refine ⟨?_, ?_⟩
      · show 1 ≤ st.num + 1
        omega
      · intro c hc
        rcases List.mem_append.mp hc with hc' | hc'
        · exact h.2 c hc'
        · simp only [List.mem_singleton] at hc'
          subst hc'
          exact ⟨st.num, h.1, rfl⟩
  · exact h

theorem split_large_paragraph_meta (cs ov : Nat) (m : Metadata) (para : List Char)
    (startNum : Nat) (hs : 1 ≤ startNum) :
    ∀ c ∈ split_large_paragraph cs ov m para startNum, seqMeta m c := by
  unfold split_large_paragraph
  exact finish_chunks_meta m _
    (foldl_inv (fun st : TState => 1 ≤ st.num ∧ ∀ c ∈ st.chunks, seqMeta m c)
      (slp_step cs ov m) (fun st s => slp_step_inv cs ov m st s)
      (sentSplit para) ⟨[], [], startNum⟩ ⟨hs, by simp⟩)

theorem flush_buffer_inv (m : Metadata) (st : TState)
    (h : 1 ≤ st.num ∧ ∀ c ∈ st.chunks, seqMeta m c) :
    1 ≤ (flush_buffer m st).num
      ∧ ∀ c ∈ (flush_buffer m st).chunks, seqMeta m c := by
  unfold flush_buffer
  split
  · exact h
  · refine ⟨?_, ?_⟩
    · show 1 ≤ st.num + 1
      omega
    · intro c hc
      rcases List.mem_append.mp hc with hc' | hc'
      · exact h.2 c hc'
      · simp only [List.mem_singleton] at hc'
        subst hc'
        exact ⟨st.num, h.1, rfl⟩

theorem ct_step_inv (cs ov : Nat) (m : Metadata) (st : TState) (para : List Char)
    (h : 1 ≤ st.num ∧ ∀ c ∈ st.chunks, seqMeta m c) :
    1 ≤ (ct_step cs ov m st para).num
      ∧ ∀ c ∈ (ct_step cs ov m st para).chunks, seqMeta m c := by
  have hf := flush_buffer_inv m st h
  unfold ct_step
  split
  · split
    · refine ⟨?_, ?_⟩
      · show 1 ≤ (flush_buffer m st).num
            + (split_large_paragraph cs ov m para (flush_buffer m st).num).length
        omega
      · show ∀ c ∈ (flush_buffer m st).chunks
            ++ split_large_paragraph cs ov m para (flush_buffer m st).num,
          seqMeta m c
        intro c hc
        rcases List.mem_append.mp hc with hc' | hc'
        · exact hf.2 c hc'
        · exact split_large_paragraph_meta cs ov m para _ hf.1 c hc'
    · exact ⟨hf.1, hf.2⟩
  · exact h

theorem chunk_text_meta (cs ov : Nat) (m : Metadata) (text : List Char) :
    ∀ c ∈ chunk_text cs ov m text, seqMeta m c := by
  unfold chunk_text
  exact finish_chunks_meta m _
    (foldl_inv (fun st : TState => 1 ≤ st.num ∧ ∀ c ∈ st.chunks, seqMeta m c)
      (ct_step cs ov m) (fun st para => ct_step_inv cs ov m st para)
      (paraSplit text) ⟨[], [], 1⟩ ⟨le_refl 1, by simp⟩)

theorem chunk_code_step_inv (cs ov : Nat) (m : Metadata) (code : List Char)
    (st : CState) (point : Nat)
    (h : 1 ≤ st.num ∧ ∀ c ∈ st.chunks, seqMeta m c) :
    1 ≤ (chunk_code_step cs ov m code st point).num
      ∧ ∀ c ∈ (chunk_code_step cs ov m code st point).chunks, seqMeta m c := by
  unfold chunk_code_step
  split
  · refine ⟨?_, ?_⟩
    · show 1 ≤ st.num + 1
      omega
    · intro c hc
      rcases List.mem_append.mp hc with hc' | hc'
      · exact h.2 c hc'
      · simp only [List.mem_singleton] at hc'
        subst hc'
        exact ⟨st.num, h.1, rfl⟩
  · exact h

theorem chunk_code_meta (cs ov : Nat) (m : Metadata) (code : List Char) :
    ∀ c ∈ chunk_code cs ov m code, seqMeta m c := by
  unfold chunk_code
  split
  · exact character_chunk_meta cs ov m code
  · have hinv := foldl_inv
      (fun st : CState => 1 ≤ st.num ∧ ∀ c ∈ st.chunks, seqMeta m c)
      (chunk_code_step cs ov m code)
      (fun st point => chunk_code_step_inv cs ov m code st point)
      (find_code_chunk_points code) ⟨[], 0, 1⟩ ⟨le_refl 1, by simp⟩
    intro c hc
    unfold chunk_code_finish at hc
    split at hc
    · rcases List.mem_append.mp hc with hc' | hc'
      · exact hinv.2 c hc'
      · simp only [List.mem_singleton] at hc'
        subst hc'
        exact ⟨_, hinv.1, rfl⟩
    · exact hinv.2 c hc

theorem chunk_section_meta (cs ov : Nat) (s : DocSection) :
    ∀ c ∈ chunk_section cs ov s, metaFrom s.meta c := by
  intro c hc
  unfold chunk_section at hc
  split at hc
  · split at hc
    · simp only [List.mem_singleton] at hc
      subst hc
      exact Or.inl rfl
    · exact Or.inr (chunk_code_meta cs ov s.meta s.text c hc)
  · exact Or.inr (chunk_text_meta cs ov s.meta s.text c hc)

/-- Every chunk of `_chunk_sections` comes from one of the sections, either
with the section metadata unchanged (intact code) or with a 1-based sequence
number added. -/
theorem chunk_sections_pre_mem (cs ov : Nat) (sections : List DocSection)
    (c : PreChunk) (hc : c ∈ chunk_sections_pre cs ov sections) :
    ∃ s ∈ sections, metaFrom s.meta c := by
  unfold chunk_sections_pre at hc
  rw [foldl_append_eq_flatMap cs ov sections []] at hc
  simp only [List.nil_append] at hc
  obtain ⟨s, hs, hcs⟩ := List.mem_flatMap.mp hc
  exact ⟨s, hs, chunk_section_meta cs ov s c hcs⟩

/-- Claim C7 (amended, confirmed).  Every chunk emitted by the chunker
carries metadata whose `title`, `source` and `chunk_type` fields are those of
its source section (the `len(text) > 0` half of the original claim is false:
see the counterexample, where a whitespace-only buffer is stripped to the
empty string). -/
theorem chunk_metadata_inherited (cs ov : Nat) (sections : List DocSection)
    (c : PreChunk) (hc : c ∈ chunk_sections_pre cs ov sections) :
    ∃ s ∈ sections,
      c.meta.title = s.meta.title ∧ c.meta.source = s.meta.source
        ∧ c.meta.chunk_type = s.meta.chunk_type := by
  obtain ⟨s, hs, hm⟩ := chunk_sections_pre_mem cs ov sections c hc
  refine ⟨s, hs, ?_⟩
  rcases hm with h | ⟨k, _, h⟩ <;> rw [h] <;> exact ⟨rfl, rfl, rfl⟩

/-- Witness for the amended C7 at a concrete section list. -/
theorem chunk_metadata_inherited_witness :
    (PreChunk.mk ("hello").data { sampleTextMeta with chunk := some 1 }).meta.title
      = sampleTextMeta.title := by
  obtain ⟨s, hs, h1, _, _⟩ :=
    chunk_metadata_inherited 5 2 [DocSection.mk ("hello").data sampleTextMeta]
      (PreChunk.mk ("hello").data { sampleTextMeta with chunk := some 1 }) (by decide)
  simp only [List.mem_singleton] at hs
  subst hs
  exact h1

/-- Claim C5 (amended, confirmed).  Every chunk emitted by a splitting path
carries a 1-based sequence number (`chunk ≥ 1` whenever the key is present);
code sections emitted intact carry the section metadata unchanged, hence no
sequence number (see the counterexample); sequence numbers restart inside
sentence-level and character-level sub-splits, so they are not unique within
a section; and the fresh identifiers attached to the emitted chunks are
pairwise distinct. -/
theorem chunk_seq_one_based_ids_unique (cs ov : Nat) (sections : List DocSection)
    (hsec : ∀ s ∈ sections, s.meta.chunk = none) :
    (∀ c ∈ chunk_sections_pre cs ov sections, ∀ n, c.meta.chunk = some n → 1 ≤ n)
    ∧ ((with_ids (chunk_sections_pre cs ov sections)).map Chunk.id).Nodup := by
  constructor
  · intro c hc n hn
    obtain ⟨s, hs, hm⟩ := chunk_sections_pre_mem cs ov sections c hc
    rcases hm with h | ⟨k, hk, h⟩
    · rw [h, hsec s hs] at hn
      cases hn
    · rw [h] at hn
      simp only [Option.some.injEq] at hn
      omega
  · have hids : (with_ids (chunk_sections_pre cs ov sections)).map Chunk.id
        = List.range (chunk_sections_pre cs ov sections).length := by
      unfold with_ids
      rw [List.map_map]
      have : (Chunk.id ∘ fun p : Nat × PreChunk => Chunk.mk p.1 p.2.text p.2.meta)
          = Prod.fst := by
        funext p
        rfl
      rw [this, List.enum_map_fst]
    rw [hids]
    exact List.nodup_range _

/-- Witness for the amended C5 at a concrete section list. -/
theorem chunk_seq_one_based_ids_unique_witness :
    ((with_ids (chunk_sections_pre 5 2
        [DocSection.mk ("hello").data sampleTextMeta])).map Chunk.id).Nodup :=
  (chunk_seq_one_based_ids_unique 5 2 [DocSection.mk ("hello").data sampleTextMeta]
    (by decide)).2

/-- The boundary search never moves `end` to or before `start` when
`chunk_size ≥ 1` and `start < len(text)`. -/
theorem nextEnd_gt (cs : Nat) (text : List Char) (start : Nat)
    (hcs : 1 ≤ cs) (hlt : start < text.length) : start < nextEnd cs text start := by
  simp only [nextEnd]
  split
  next h0 =>
    split
    next hsb => omega
    next hsb =>
      split
      next hsp => omega
      next hsp => omega
  next h0 => omega

/-- The overlap step-back never regresses to or before the previous start
when `chunk_size ≥ 1` (if `end - overlap` would not advance, the loop takes
`start = end` instead). -/
theorem next_start_lt (cs ov : Nat) (text : List Char) (start : Nat)
    (hcs : 1 ≤ cs) (hlt : start < text.length) :
    start < next_start cs ov text start := by
  have := nextEnd_gt cs text start hcs hlt
  simp only [next_start]
  split <;> omega

/-- With `chunk_size ≥ 1`, `len(text) - start + 1` iterations always suffice:
the character-window loop of `_character_chunk` terminates. -/
theorem ccAux_isSome (cs ov : Nat) (m : Metadata) (text : List Char) (hcs : 1 ≤ cs) :
    ∀ (n start num : Nat), text.length ≤ start + n + 1 →
      (ccAux cs ov m text (n + 1) start num).isSome := by
  intro n
  induction n with
  | zero =>
    intro start num hlen
    simp only [ccAux]
    split
    next hlt =>
      have hns := next_start_lt cs ov text start hcs hlt
      rw [if_pos (Or.inl (by omega))]
      simp
    next => simp
  | succ n ih =>
    intro start num hlen
    simp only [ccAux]
    split
    next hlt =>
      split
      next => simp
      next hbreak =>
        have hns := next_start_lt cs ov text start hcs hlt
        have hrec := ih (next_start cs ov text start) (num + 1) (by omega)
        simp only [ccAux] at hrec
        simpa using hrec
    next => simp

/-- Claim C10 (confirmed).  For every input text, every `chunk_size ≥ 1` and
every overlap, the character-window fallback chunker terminates: on each loop
iteration the next start index strictly increases (the overlap step-back is
skipped whenever it would not advance past the previous start), so the loop
driven by `len(text) + 1` units of fuel always reaches its base case. -/
theorem character_chunk_terminating (cs ov : Nat) (m : Metadata) (text : List Char)
    (hcs : 1 ≤ cs) :
    (∀ start, start < text.length → start < next_start cs ov text start)
    ∧ (ccAux cs ov m text (text.length + 1) 0 1).isSome := by
  constructor
  · intro start h
    exact next_start_lt cs ov text start hcs h
  · exact ccAux_isSome cs ov m text hcs text.length 0 1 (by omega)

/-- Witness for C10 at `chunk_size = 1`, `overlap = 0`, text `"ab"`. -/
theorem character_chunk_terminating_witness :
    (1 ≤ 1)
    ∧ (ccAux 1 0 sampleTextMeta ("ab").data (("ab").data.length + 1) 0 1).isSome :=
  ⟨by decide,
    (character_chunk_terminating 1 0 sampleTextMeta ("ab").data (by decide)).2⟩

/-- `rfind` returns `-1` or an index inside `[s, e)`. -/
theorem pyRfind_bounds (c : Char) (s e : Nat) :
    ∀ (l : List Char) (i : Nat),
      pyRfind c s e l i = -1
      ∨ ((s : Int) ≤ pyRfind c s e l i ∧ pyRfind c s e l i < (e : Int)) := by
  intro l
  induction l with
  | nil => intro i; left; rfl
  | cons x xs ih =>
    intro i
    simp only [pyRfind]
    split
    next h =>
      rcases ih (i + 1) with h1 | h1
      · exact absurd h1 h
      · right
        exact h1
    next h =>
      split
      next hcond =>
        right
        omega
      next hcond => left; rfl

/-- The boundary search never moves `end` past `min(start + cs, len)`. -/
theorem nextEnd_le (cs : Nat) (text : List Char) (start : Nat) :
    nextEnd cs text start ≤ min (start + cs) text.length := by
  simp only [nextEnd]
  split
  next h0 =>
    split
    next hsb =>
      rcases pyRfind_bounds '.' start (min (start + cs) text.length) text 0 with h | h
      · omega
      · omega
    next hsb =>
      split
      next hsp =>
        rcases pyRfind_bounds ' ' start (min (start + cs) text.length) text 0 with h | h
        · omega
        · omega
      next hsp => omega
  next h0 => omega

theorem next_start_le (cs ov : Nat) (text : List Char) (start : Nat) :
    next_start cs ov text start ≤ nextEnd cs text start := by
  simp only [next_start]
  split <;> omega

/-- A loop entered with `start < len(text)` emits at least one chunk. -/
theorem ccAux_some_ne_nil (cs ov : Nat) (m : Metadata) (text : List Char)
    (fuel start num : Nat) (hlt : start < text.length) (l : List PreChunk)
    (h : ccAux cs ov m text (fuel + 1) start num = some l) : l ≠ [] := by
  simp only [ccAux] at h
  rw [if_pos hlt] at h
  split at h
  · cases h
    simp
  · rw [Option.map_eq_some'] at h
    obtain ⟨l', _, rfl⟩ := h
    simp

/-- Claim C4 (amended, confirmed): a code section longer than
`1.5 × chunk_size` for which the boundary detector finds *no* split points is
character-chunked into at least two chunks.  (When boundary points exist but
every point stays closer than `chunk_size / 2` to the running start, the
section is emitted as a single chunk — see the counterexample.) -/
theorem chunk_code_no_points_splits (cs ov : Nat) (m : Metadata) (code : List Char)
    (hcs : 1 ≤ cs) (hbig : 3 * cs < 2 * code.length)
    (hnp : find_code_chunk_points code = []) :
    2 ≤ (chunk_code cs ov m code).length := by
  unfold chunk_code
  rw [hnp]
  simp only [List.isEmpty_nil, if_true]
  unfold character_chunk
  have hcslen : cs < code.length := by omega
  obtain ⟨l, hl⟩ := Option.isSome_iff_exists.mp
    (ccAux_isSome cs ov m code hcs code.length 0 1 (by omega))
  rw [hl, Option.getD_some]
  simp only [ccAux] at hl
  rw [if_pos (show 0 < code.length by omega)] at hl
  have hele : nextEnd cs code 0 ≤ cs := by
    have h := nextEnd_le cs code 0
    omega
  have hsle : next_start cs ov code 0 ≤ nextEnd cs code 0 := next_start_le cs ov code 0
  have hbreak : ¬(code.length ≤ next_start cs ov code 0
      ∨ (nextEnd cs code 0 = code.length ∧ 1 < 1 + 1)) := by
    push_neg
    refine ⟨by omega, fun he => absurd he (by omega)⟩
  rw [if_neg hbreak] at hl
  rw [Option.map_eq_some'] at hl
  obtain ⟨l', hl', rfl⟩ := hl
  have hne : l' ≠ [] := by
    cases hclen : code.length with
    | zero => omega
    | succ nn =>
      rw [hclen] at hl'
      exact ccAux_some_ne_nil cs ov m code nn (next_start cs ov code 0) 2
        (by omega) l' hl'
  cases l' with
  | nil => exact absurd rfl hne
  | cons a t =>
    simp only [List.length_cons]
    omega

/-- Witness for the amended C4: an 8-character pattern-free code block with
`chunk_size = 2`. -/
theorem chunk_code_no_points_splits_witness :
    (1 ≤ 2) ∧ (3 * 2 < 2 * ("xy zt uv").data.length)
    ∧ 2 ≤ (chunk_code 2 1 sampleCodeMeta ("xy zt uv").data).length :=
  ⟨by decide, by decide,
    chunk_code_no_points_splits 2 1 sampleCodeMeta ("xy zt uv").data
      (by decide) (by decide) (by decide)⟩
